import Mathlib

/-!
Verification of the recursive task-execution engine
(`ghostos/core/aifunc/manager.py`, class `DefaultAIFuncManagerImpl`).

The Manager, its think-loop (`execute`), nested launches (`run`),
concurrent fan-out (`parallel_run`) and teardown (`destroy`) are embedded
as pure Lean functions.  Machine state that Python mutates in place
(the frame's step counter, the Manager's `_values` dict, the liveness of
resource scopes) is threaded explicitly.

`ExecFrame`, `ExecStep` and the resource-scope container are not part of
the provided sources (only `manager.py` is); they are modelled from the
spec where so marked.
-/

namespace GhostOS

/-- Python-level errors the engine can raise.
`attributeError` models access to a deleted attribute;
`stepLimit` is `RuntimeError("exceeded max step ...")`;
`recursionLimit` is `RuntimeError("... stackoverflow")` from `__init__`;
`resultTypeMismatch` is `RuntimeError("result is invalid AIFuncResult ...")`;
`indexError` models an out-of-range future index (never reached for valid
completion orders). -/
inductive PyErr where
  | attributeError
  | stepLimit
  | recursionLimit
  | resultTypeMismatch
  | indexError
deriving DecidableEq, Repr

/-- The values a Driver's `think` can return as `result`, classified by what
the engine's type test observes: `noneV` is Python `None`; `aifuncResult ty`
is an instance of an `AIFuncResult` subclass whose concrete class is `ty`
(so `isinstance(result, AIFuncResult)` is true regardless of `ty`);
`otherV` is any non-`None` value that is not an `AIFuncResult`. -/
inductive PyVal where
  | noneV
  | aifuncResult (ty : String)
  | otherV
deriving DecidableEq, Repr

/-- Modelled from the spec: `ExecFrame` identifies one invocation of a task.
`depth` is the nesting depth (root = 0); `steps` is the frame's step
counter: the number of `ExecStep`s created for it so far, i.e. the highest
sequence number handed out (sequence numbers are 1-based).  The unique id
and the originating task identity are omitted: no claimed property
observes them. -/
structure ExecFrame where
  depth : Nat
  steps : Nat
deriving DecidableEq, Repr

/-- Modelled from the spec: `ExecStep` identifies one think/act iteration.
`depth` is the depth of its parent frame (the code reads `step.depth` in
`DefaultAIFuncManagerImpl.__init__`); `seq` is its 1-based sequence number
within the frame. -/
structure ExecStep where
  depth : Nat
  seq : Nat
deriving DecidableEq, Repr

/-- Modelled from the spec: `frame.new_step()` returns the next sequentially
numbered step for the frame, advancing the frame's step counter (the
Python object mutates in place; here the advanced frame is returned). -/
def ExecFrame.newStep (f : ExecFrame) : ExecFrame × ExecStep :=
  ({ f with steps := f.steps + 1 }, { depth := f.depth, seq := f.steps + 1 })

/-- Modelled from the spec: `step.new_frame(fn)` returns a frame one level
deeper than the step's own frame, with a fresh step counter. -/
def ExecStep.newFrame (s : ExecStep) : ExecFrame :=
  { depth := s.depth + 1, steps := 0 }

/-- Conversation state handled opaquely by the engine
(`driver.initialize()` / threaded through `think`). -/
abbrev Thread := Nat

/-- A Driver, per §4.2: `initialize` yields the starting conversation
state; `think` performs one iteration, returning the new state, an
optional result value and the `finished` flag.  `think` here is an oracle
that does not call back into the Manager (self-launching tasks are
modelled separately). -/
structure Driver where
  initThread : Thread
  think : Thread → ExecStep → Thread × PyVal × Bool

/-- A task (`AIFunc`) as the engine sees it: an optional task-specific
driver (`cls.__aifunc_driver__`) and the declared result type
(`get_aifunc_result_type`). -/
structure AIFunc where
  aifuncDriver : Option Driver
  resultType : String

/-- Modelled from the spec: `ExecFrame.from_func(fn)` creates a root frame
(depth 0) for the task. -/
def ExecFrame.fromFunc (_fn : AIFunc) : ExecFrame :=
  { depth := 0, steps := 0 }

/-- The world of resource scopes (containers).  Scopes are identified by a
number; `dead` records the scopes that have been destroyed.  Modelled from
the spec: the scope collaborator's `destroy()` is safe to call multiple
times and does not affect unrelated scopes. -/
structure World where
  dead : List Nat
deriving DecidableEq, Repr

/-- Scope teardown: `container.destroy()` on scope `c`. -/
def World.destroyScope (w : World) (c : Nat) : World :=
  { dead := c :: w.dead }

/-- Whether scope `c` is still usable. -/
def World.alive (w : World) (c : Nat) : Bool :=
  ¬ c ∈ w.dead

/-- The Manager (`DefaultAIFuncManagerImpl`) state.
`container` holds the id of the resource scope the `_container` attribute
refers to; it becomes `none` when `destroy` executes `del self._container`
(`destroy` also deletes `_values`, `_exec_step` and `_upstream`; those
deletions are modelled by clearing the fields, which no claimed property
distinguishes from deletion, while `_container` is the first attribute a
second `destroy` call touches and is therefore tracked exactly).
`destroyed` is the `_destroyed` flag. -/
structure Manager where
  container : Option Nat
  execStep : Option ExecStep
  llmApiName : String
  maxDepth : Nat
  maxStep : Nat
  defaultDriverType : Driver
  values : List (String × PyVal)
  destroyed : Bool

/-- Constructor `__init__`: stores the configuration, an empty `_values` dict and
`_destroyed = False`, then raises `RuntimeError(... stackoverflow)` when a
step is given whose depth exceeds `max_depth`. -/
def mkManager (container : Nat) (step : Option ExecStep) (defaultDriver : Driver)
    (llmApiName : String) (maxDepth : Nat) (maxStep : Nat) : Except PyErr Manager :=
  match step with
  | some s =>
      if s.depth > maxDepth then .error .recursionLimit
      else .ok { container := some container, execStep := some s,
                 llmApiName := llmApiName, maxDepth := maxDepth, maxStep := maxStep,
                 defaultDriverType := defaultDriver, values := [], destroyed := false }
  | none =>
      .ok { container := some container, execStep := none,
            llmApiName := llmApiName, maxDepth := maxDepth, maxStep := maxStep,
            defaultDriverType := defaultDriver, values := [], destroyed := false }

/-- Source `sub_manager(step)`: builds a child Manager passing along the model-API
selector, the default driver type and `max_depth` — and passing the
caller's own `_container` object unchanged (the same scope id, not a
derived child scope).  `max_step` is not forwarded, so the child gets the
default `10`. -/
def Manager.subManager (m : Manager) (step : ExecStep) : Except PyErr Manager :=
  match m.container with
  | none => .error .attributeError
  | some c => mkManager c (some step) m.defaultDriverType m.llmApiName m.maxDepth 10

/-- Source `destroy()`: returns immediately when `_destroyed` is truthy; otherwise
destroys the container's scope and deletes the attributes.  The code never
sets `_destroyed = True`, so the flag stays `False` after the first call,
and a second call reaches `self._container.destroy()` on a deleted
attribute — an `AttributeError`. -/
def Manager.destroy (m : Manager) (w : World) : Except PyErr (Manager × World) :=
  if m.destroyed then .ok (m, w)
  else
    match m.container with
    | none => .error .attributeError
    | some c =>
        .ok ({ m with container := none, values := [], execStep := none },
             w.destroyScope c)

/-- Assoc-list update with dict semantics: overwrite the binding of `key`
if present, else append. -/
def setKV : List (String × PyVal) → String → PyVal → List (String × PyVal)
  | [], key, v => [(key, v)]
  | (k, v') :: rest, key, v =>
      if k = key then (k, v) :: rest else (k, v') :: setKV rest key v

/-- Assoc-list lookup (`dict.get(key, None)`). -/
def getKV : List (String × PyVal) → String → Option PyVal
  | [], _ => none
  | (k, v) :: rest, key => if k = key then some v else getKV rest key

/-- Source `set(key, value)`: overwrite, last writer wins. -/
def Manager.set (m : Manager) (key : String) (v : PyVal) : Manager :=
  { m with values := setKV m.values key v }

/-- Source `get(key)`: the stored value or `None`. -/
def Manager.get (m : Manager) (key : String) : Option PyVal :=
  getKV m.values key

/-- Source `get_driver(fn)`: the task's own `__aifunc_driver__` if declared, else
the Manager's configured default driver type. -/
def Manager.getDriver (m : Manager) (fn : AIFunc) : Driver :=
  match fn.aifuncDriver with
  | some d => d
  | none => m.defaultDriverType

/-- Outcome of `execute`.  `frame` is the frame as left behind (its `steps`
field tells how many `ExecStep`s were created for it); `thinks` counts the
`driver.think` calls performed.  `outOfFuel` marks a truncated run of a
loop that has not yet terminated (Python would still be looping). -/
inductive ExecOutcome where
  | done (result : PyVal) (frame : ExecFrame) (thinks : Nat)
  | err (e : PyErr) (frame : ExecFrame) (thinks : Nat)
  | outOfFuel (frame : ExecFrame) (thinks : Nat)
deriving DecidableEq, Repr

/-- The frame an outcome left behind. -/
def ExecOutcome.frame : ExecOutcome → ExecFrame
  | .done _ f _ => f
  | .err _ f _ => f
  | .outOfFuel f _ => f

/-- The `while not finished` loop of `execute`: increment the local step
counter, create a new `ExecStep` for the iteration (the step is created
before the limit check, exactly as in the source), raise the step-limit
error when `max_step != 0 and step > max_step`, otherwise call
`driver.think` and stop if `finished`.  `fuel` bounds the number of
iterations the model unrolls. -/
def executeLoop (maxStep : Nat) (d : Driver) :
    ExecFrame → Thread → Nat → Nat → Nat → ExecOutcome
  | frame, _, _, thinks, 0 => .outOfFuel frame thinks
  | frame, thread, counter, thinks, fuel + 1 =>
      if maxStep ≠ 0 ∧ counter + 1 > maxStep then
        .err .stepLimit (frame.newStep).1 thinks
      else if (d.think thread (frame.newStep).2).2.2 then
        .done (d.think thread (frame.newStep).2).2.1 (frame.newStep).1 (thinks + 1)
      else
        executeLoop maxStep d (frame.newStep).1 (d.think thread (frame.newStep).2).1
          (counter + 1) (thinks + 1) fuel

/-- The final result check of `execute`, applied when the loop finishes:
the source's `result is not None and not isinstance(result,
AIFuncResult)`.  It raises only for a non-`None` value outside the
`AIFuncResult` base class; the task's declared result type
(`get_aifunc_result_type`) is used only in the error message and is never
compared against the result. -/
def finishCheck : ExecOutcome → ExecOutcome
  | .done r frame thinks =>
      match r with
      | .otherV => .err .resultTypeMismatch frame thinks
      | r => .done r frame thinks
  | out => out

/-- Source `execute(fn, frame=None)`: default the frame to a root frame,
resolve the driver, run the think loop, then apply the final result
check. -/
def Manager.execute (m : Manager) (fn : AIFunc) (frameOpt : Option ExecFrame)
    (fuel : Nat) : ExecOutcome :=
  let frame := match frameOpt with
    | some f => f
    | none => ExecFrame.fromFunc fn
  let d := m.getDriver fn
  finishCheck (executeLoop m.maxStep d frame d.initThread 0 0 fuel)

/-- Result of a call that can raise (`run`, a `parallel_run` worker). -/
inductive PyRes where
  | ok (v : PyVal)
  | raised (e : PyErr)
  | fuelOut
deriving DecidableEq, Repr

/-- Source `run(key, fn)`: build a frame one level below the current step (or a
root frame when the Manager has no step), take the frame's first step,
construct the child Manager on it (the depth check of `__init__` fires
here), execute the task on the child, store a successful result under
`key` in the calling Manager's own `_values`, and — in the `finally` —
destroy the child on both the success and the failure path.  On
`outOfFuel` the Python loop is still inside `execute`, so the `finally`
has not run yet and no state changes are recorded. -/
def Manager.run (m : Manager) (w : World) (key : String) (fn : AIFunc)
    (fuel : Nat) : PyRes × Manager × World :=
  let frame := match m.execStep with
    | some s => s.newFrame
    | none => ExecFrame.fromFunc fn
  let p := frame.newStep
  match m.subManager p.2 with
  | .error e => (.raised e, m, w)
  | .ok sub =>
      match sub.execute fn (some p.1) fuel with
      | .done r _ _ =>
          match sub.destroy w with
          | .ok q => (.ok r, m.set key r, q.2)
          | .error e => (.raised e, m.set key r, w)
      | .err e _ _ =>
          match sub.destroy w with
          | .ok q => (.raised e, m, q.2)
          | .error e' => (.raised e', m, w)
      | .outOfFuel _ _ => (.fuelOut, m, w)

/-- The workers of `parallel_run`: one `execute_task` per entry, each
calling `self.run(key, fn)` on the shared calling Manager.
`ThreadPoolExecutor(max_workers=len(fn_dict))` starts every worker, and
the `with` block joins them all (`shutdown(wait=True)`) before any
exception leaves `parallel_run`, so every worker runs to completion; the
model threads the shared Manager and World through the workers in
submission order (one interleaving — each worker writes only its own key,
see the shared-store discussion in §5 of the spec) and records each
worker's outcome. -/
def runWorkers (fuel : Nat) :
    Manager → World → List (String × AIFunc) →
    Manager × World × List (String × PyRes)
  | m, w, [] => (m, w, [])
  | m, w, (key, fn) :: rest =>
      let r := m.run w key fn fuel
      let out := runWorkers fuel r.2.1 r.2.2 rest
      (out.1, out.2.1, (key, r.1) :: out.2.2)

/-- Outcome of `parallel_run` as the caller observes it. -/
inductive ParOut where
  | ok (results : List (String × PyVal))
  | raised (e : PyErr)
  | fuelOut
deriving DecidableEq, Repr

/-- The `for future in as_completed(futures)` loop: visit the worker
outcomes in completion order (`order` lists worker indices);
`future.result()` re-raises the first captured failure, otherwise the
result is recorded in the local `results` dict and written again into the
caller's `_values`. -/
def asCompletedLoop (outs : List (String × PyRes)) :
    List Nat → Manager → List (String × PyVal) → ParOut × Manager
  | [], m, acc => (.ok acc, m)
  | i :: rest, m, acc =>
      match outs.get? i with
      | none => (.raised .indexError, m)
      | some (k, .ok r) => asCompletedLoop outs rest (m.set k r) (acc ++ [(k, r)])
      | some (_, .raised e) => (.raised e, m)
      | some (_, .fuelOut) => (.fuelOut, m)

/-- Source `parallel_run(fn_dict)`: run every worker (all complete before any
failure propagates, thanks to the executor's context-manager join), then
drain the futures in completion order, surfacing the first captured
failure if any. -/
def Manager.parallelRun (m : Manager) (w : World) (tasks : List (String × AIFunc))
    (order : List Nat) (fuel : Nat) : ParOut × Manager × World :=
  let ws := runWorkers fuel m w tasks
  let fin := asCompletedLoop ws.2.2 order ws.1 []
  (fin.1, fin.2, ws.2.1)

/-- The first failed worker along the completion order (what the
`as_completed` loop surfaces). -/
def firstFailure (outs : List (String × PyRes)) : List Nat → Option PyErr
  | [] => none
  | i :: rest =>
      match outs.get? i with
      | some (_, .ok _) => firstFailure outs rest
      | some (_, .raised e) => some e
      | _ => none

/-! ### The self-launching task family

A task whose driver, on its first think, launches a smaller copy of the
task through the context-side `run` and then finishes.  The driver calls
back into the Manager, so this family is embedded as a pair of mutually
recursive functions transcribing `execute` (one iteration of the loop,
since the driver always finishes on its first think) and `run`
specialised to the family; the recursion is on the number of remaining
self-launches.  Per the source's `compiler`, the `AIFuncCtx` the task body
sees is `sub_manager(step)` for the current `ExecStep`. -/

/-- The self-launching task's declared result type and result value. -/
def selfFn : AIFunc := { aifuncDriver := none, resultType := "SelfResult" }

/-- The result every member of the family produces. -/
def selfResult : PyVal := .aifuncResult "SelfResult"

mutual

/-- Launch `run(key, selfFn[k])` on Manager `m`: transcription of `Manager.run`
for the family member that performs `k` further self-launches after this
one.  The last component counts the `run` launch attempts made (this call
included). -/
def runSelf (m : Manager) (w : World) (key : String) (k : Nat) :
    PyRes × Manager × World × Nat :=
  let frame := match m.execStep with
    | some s => s.newFrame
    | none => ExecFrame.fromFunc selfFn
  let p := frame.newStep
  match m.subManager p.2 with
  | .error e => (.raised e, m, w, 1)
  | .ok sub =>
      match executeSelf sub p.1 w k with
      | (.ok r, w', n) =>
          match sub.destroy w' with
          | .ok q => (.ok r, m.set key r, q.2, n + 1)
          | .error e => (.raised e, m.set key r, w', n + 1)
      | (.raised e, w', n) =>
          match sub.destroy w' with
          | .ok q => (.raised e, m, q.2, n + 1)
          | .error e' => (.raised e', m, w', n + 1)
      | (.fuelOut, w', n) => (.fuelOut, m, w', n + 1)
termination_by 2 * k + 1

/-- Execution `execute(selfFn[k], frame)` on Manager `m`: one iteration of the
`execute` loop (local counter 1, fresh `ExecStep`, step-limit check), then
the think that launches the next family member via `run` on the task's
`AIFuncCtx` (`sub_manager` of the current step) when `k > 0`, and finishes
with `selfResult` — which passes the final base-class check.  The last
component counts the `run` launch attempts made inside. -/
def executeSelf (m : Manager) (frame : ExecFrame) (w : World) (k : Nat) :
    PyRes × World × Nat :=
  let counter := 1
  let p := frame.newStep
  if m.maxStep ≠ 0 ∧ counter > m.maxStep then (.raised .stepLimit, w, 0)
  else
    match m.subManager p.2 with
    | .error e => (.raised e, w, 0)
    | .ok ctx =>
        match k with
        | 0 => (.ok selfResult, w, 0)
        | k' + 1 =>
            match runSelf ctx w "self" k' with
            | (.ok _, _, w', n) => (.ok selfResult, w', n)
            | (.raised e, _, w', n) => (.raised e, w', n)
            | (.fuelOut, _, w', n) => (.fuelOut, w', n)
termination_by 2 * k

end

/-- A root Manager as `DefaultAIFuncManagerProvider.factory` creates it
(no step, default driver), with the depth and step bounds made explicit. -/
def rootManager (c : Nat) (d : Driver) (maxDepth maxStep : Nat) : Manager :=
  { container := some c, execStep := none, llmApiName := "",
    maxDepth := maxDepth, maxStep := maxStep, defaultDriverType := d,
    values := [], destroyed := false }

/-- A driver that never touches the context and finishes immediately
(used only to populate `defaultDriverType` where the driver is unused). -/
def idleDriver : Driver :=
  { initThread := 0, think := fun t _ => (t, .noneV, true) }

/-- Top-level scenario for the recursion-limit claim: a root Manager
configured with maximum depth `D` executes the family member that
performs `N` nested self-launches.  Returns the caller-visible outcome,
the final scope world and the number of launch attempts made. -/
def topSelf (D N : Nat) : PyRes × World × Nat :=
  executeSelf (rootManager 0 idleDriver D 10) (ExecFrame.fromFunc selfFn) ⟨[]⟩ N

/-! ### Concrete fixtures used by the theorems below -/

/-- A driver whose `think` never sets `finished`. -/
def neverFinishDriver : Driver :=
  { initThread := 0, think := fun t _ => (t + 1, .noneV, false) }

/-- A task driven by `neverFinishDriver`. -/
def fnNever : AIFunc := { aifuncDriver := some neverFinishDriver, resultType := "R" }

/-- A driver that immediately finishes with an `AIFuncResult` of class `A`. -/
def okDriver : Driver :=
  { initThread := 0, think := fun t _ => (t, .aifuncResult "A", true) }

/-- A task declaring result type `A`, driven by `okDriver`. -/
def fnOk : AIFunc := { aifuncDriver := some okDriver, resultType := "A" }

/-- A driver that finishes with an `AIFuncResult` of class `OtherResult`. -/
def wrongTyDriver : Driver :=
  { initThread := 0, think := fun t _ => (t, .aifuncResult "OtherResult", true) }

/-- A task declaring result type `SpecificResult` whose driver finishes with
an `AIFuncResult` of the different class `OtherResult`. -/
def fnWrongTy : AIFunc :=
  { aifuncDriver := some wrongTyDriver, resultType := "SpecificResult" }

/-- A driver that finishes with a value outside the `AIFuncResult` base
class. -/
def badDriver : Driver :=
  { initThread := 0, think := fun t _ => (t, .otherV, true) }

/-- A task whose driver finishes with a value outside the `AIFuncResult`
base class. -/
def fnBad : AIFunc := { aifuncDriver := some badDriver, resultType := "A" }

/-- A fresh world where every scope is alive. -/
def w0 : World := ⟨[]⟩

/-- A root Manager on scope 7 with the default bounds. -/
def m7 : Manager := rootManager 7 idleDriver 10 10

/-- A Manager bound to a step at depth 0 (as the `AIFuncCtx` of a task in a
root frame would be). -/
def mStep : Manager := { m7 with execStep := some ⟨0, 1⟩ }

/-! ### Helper lemmas about the store -/

theorem getKV_setKV_same (l : List (String × PyVal)) (k : String) (v : PyVal) :
    getKV (setKV l k v) k = some v := by
  induction l with
  | nil => simp [setKV, getKV]
  | cons h t ih =>
      by_cases hk : h.1 = k
      · simp [setKV, hk, getKV]
      · simp [setKV, hk, getKV, ih]

theorem getKV_setKV_other (l : List (String × PyVal)) (k k' : String) (v : PyVal)
    (h : k' ≠ k) : getKV (setKV l k' v) k = getKV l k := by
  induction l with
  | nil => simp [setKV, getKV, h]
  | cons hd t ih =>
      by_cases hk : hd.1 = k'
      · have hne : hd.1 ≠ k := fun hh => h (hk.symm.trans hh)
        simp [setKV, getKV, hk, hne, h]
      · simp [setKV, getKV, hk, ih]

theorem Manager.get_set_same (m : Manager) (k : String) (v : PyVal) :
    (m.set k v).get k = some v := getKV_setKV_same m.values k v

theorem Manager.get_set_other (m : Manager) (k k' : String) (v : PyVal)
    (h : k' ≠ k) : (m.set k' v).get k = m.get k := getKV_setKV_other m.values k k' v h

/-! ### Helper lemmas about the execute loop -/

/-- With a never-finishing driver and a non-zero bound, the loop raises the
step-limit error the first time the local counter exceeds the bound; each
iteration up to that point performs one think and creates one step, and
the final, limit-tripping iteration creates its step but performs no
think. -/
theorem executeLoop_neverFinish (maxStep : Nat) (d : Driver)
    (hnf : ∀ t st, (d.think t st).2.2 = false) (hms : maxStep ≠ 0) :
    ∀ fuel counter thinks frame thread,
      counter ≤ maxStep → maxStep + 1 - counter ≤ fuel →
      executeLoop maxStep d frame thread counter thinks fuel =
        .err .stepLimit ⟨frame.depth, frame.steps + (maxStep + 1 - counter)⟩
          (thinks + (maxStep - counter)) := by
  intro fuel
  induction fuel with
  | zero =>
      intro counter thinks frame thread hc hf
      exact absurd hf (by omega)
  | succ fuel ih =>
      intro counter thinks frame thread hc hf
      rw [executeLoop]
      by_cases hlim : counter + 1 > maxStep
      · rw [if_pos ⟨hms, hlim⟩]
        have h1 : maxStep + 1 - counter = 1 := by omega
        have h2 : maxStep - counter = 0 := by omega
        rw [h1, h2]
        simp [ExecFrame.newStep]
      · rw [if_neg (fun h => hlim h.2), hnf]
        rw [if_neg (by simp)]
        rw [ih (counter + 1) (thinks + 1) _ _ (by omega) (by omega)]
        simp only [ExecFrame.newStep, ExecOutcome.err.injEq, ExecFrame.mk.injEq,
          true_and, and_true]
        omega

/-- With the bound configured to 0 the loop performs no limit check at all:
for any driver it can never produce the step-limit error. -/
theorem executeLoop_zero_noLimit (d : Driver) :
    ∀ fuel frame thread counter thinks f t,
      executeLoop 0 d frame thread counter thinks fuel ≠ .err .stepLimit f t := by
  intro fuel
  induction fuel with
  | zero => intro frame thread counter thinks f t; simp [executeLoop]
  | succ fuel ih =>
      intro frame thread counter thinks f t
      rw [executeLoop]
      rw [if_neg (by simp)]
      by_cases hfin : (d.think thread (frame.newStep).2).2.2 = true
      · rw [if_pos hfin]; simp
      · rw [if_neg hfin]; exact ih _ _ _ _ f t

/-- With the bound configured to 0 and a never-finishing driver the loop
keeps going: every unrolling ends still running, having performed one
think per unit of fuel. -/
theorem executeLoop_zero_runs (d : Driver)
    (hnf : ∀ t st, (d.think t st).2.2 = false) :
    ∀ fuel frame thread counter thinks,
      executeLoop 0 d frame thread counter thinks fuel =
        .outOfFuel ⟨frame.depth, frame.steps + fuel⟩ (thinks + fuel) := by
  intro fuel
  induction fuel with
  | zero => intro frame thread counter thinks; simp [executeLoop]
  | succ fuel ih =>
      intro frame thread counter thinks
      rw [executeLoop]
      rw [if_neg (by simp), hnf, if_neg (by simp)]
      rw [ih]
      simp only [ExecFrame.newStep, ExecOutcome.outOfFuel.injEq, ExecFrame.mk.injEq,
        true_and, and_true]
      omega

/-- Whatever the driver does, the loop can grow the frame's step counter by
at most `maxStep + 1 - counter` more steps (the limit-tripping iteration
creates one last step before raising). -/
theorem executeLoop_steps_le (maxStep : Nat) (d : Driver) (hms : maxStep ≠ 0) :
    ∀ fuel frame thread counter thinks, counter ≤ maxStep →
      (executeLoop maxStep d frame thread counter thinks fuel).frame.steps
        ≤ frame.steps + (maxStep + 1 - counter) := by
  intro fuel
  induction fuel with
  | zero =>
      intro frame thread counter thinks hc
      simp only [executeLoop, ExecOutcome.frame]
      exact Nat.le_add_right _ _
  | succ fuel ih =>
      intro frame thread counter thinks hc
      rw [executeLoop]
      by_cases hlim : counter + 1 > maxStep
      · rw [if_pos ⟨hms, hlim⟩]
        simp only [ExecOutcome.frame, ExecFrame.newStep]
        omega
      · rw [if_neg (fun h => hlim h.2)]
        by_cases hfin : (d.think thread (frame.newStep).2).2.2 = true
        · rw [if_pos hfin]
          simp only [ExecOutcome.frame, ExecFrame.newStep]
          omega
        · rw [if_neg hfin]
          have := ih (frame.newStep).1 ((d.think thread (frame.newStep).2).1)
            (counter + 1) (thinks + 1) (by omega)
          simp only [ExecFrame.newStep] at this ⊢
          omega

/-- The final check never turns an outcome into the step-limit error. -/
theorem finishCheck_ne_stepLimit (out : ExecOutcome)
    (h : ∀ f t, out ≠ .err .stepLimit f t) :
    ∀ f t, finishCheck out ≠ .err .stepLimit f t := by
  intro f t
  cases out with
  | done r frame thinks => cases r <;> simp [finishCheck]
  | err e frame thinks => exact h f t
  | outOfFuel frame thinks => simp [finishCheck]

/-- The final check leaves the frame of the outcome unchanged. -/
theorem finishCheck_frame (out : ExecOutcome) :
    (finishCheck out).frame = out.frame := by
  cases out with
  | done r frame thinks => cases r <;> simp [finishCheck, ExecOutcome.frame]
  | err e frame thinks => rfl
  | outOfFuel frame thinks => rfl

/-! ### C-claim fixtures with specific bounds -/

/-- A root Manager with `max_step` misconfigured to 0. -/
def mS0 : Manager := rootManager 7 idleDriver 10 0

/-- A root Manager with `max_step = 1`. -/
def mS1 : Manager := rootManager 7 idleDriver 10 1

/-- A root Manager with `max_step = 2`. -/
def mS2 : Manager := rootManager 7 idleDriver 10 2

/-- The child Manager `m7.sub_manager(⟨0,1⟩)` builds: same scope id 7 as
the parent, bound to the given step, default `max_step` 10. -/
def c1child : Manager :=
  { container := some 7, execStep := some ⟨0, 1⟩, llmApiName := "",
    maxDepth := 10, maxStep := 10, defaultDriverType := idleDriver,
    values := [], destroyed := false }

/-- C1: the claim says `sub_manager` binds the child to a new, isolated
scope derived from (not identical to) the parent's, so that destroying
the child leaves the parent's scope valid.  The code instead passes the
parent's own `_container` to the child: the child's scope id equals the
parent's, and destroying the child destroys scope 7 — the very scope the
parent is still bound to — leaving it dead, while it was alive before.
This evaluates the code at the failing input of the code-bug report. -/
theorem subManager_shares_parent_scope :
    m7.subManager ⟨0, 1⟩ = .ok c1child ∧
    c1child.container = m7.container ∧
    (c1child.destroy w0).map (fun p => p.2) = .ok (w0.destroyScope 7) ∧
    w0.alive 7 = true ∧
    (w0.destroyScope 7).alive 7 = false := by
  refine ⟨rfl, rfl, rfl, by decide, by decide⟩

/-- C2: the claim says `destroy` is idempotent.  In the code `_destroyed`
is initialised `False` and never set, so after a first successful
`destroy` (which deletes `_container`) the flag is still `False` and a
second call reaches `self._container.destroy()` on the deleted attribute:
an `AttributeError`, not a no-op.  This evaluates the code at the failing
input of the code-bug report. -/
theorem destroy_second_call_raises :
    (m7.destroy w0).map (fun p => p.1.destroyed) = .ok false ∧
    (match m7.destroy w0 with
     | .ok p => p.1.destroy p.2
     | .error e => .error e) = .error .attributeError := by
  exact ⟨rfl, rfl⟩

/-- C3 (amended to `S ≥ 1`): with a configured bound `S ≥ 1` and a driver
whose `think` never finishes, `execute` fails with the step-limit error
after exactly `S` think iterations — the check fires when the local
counter first exceeds `S`, before an `(S+1)`-th think is made (though
after the iteration's step is created, hence the final frame counter
`S + 1`). -/
theorem execute_stepLimit_exact (m : Manager) (fn : AIFunc) (S fuel : Nat)
    (hS : m.maxStep = S) (h0 : S ≠ 0)
    (hnf : ∀ t st, ((m.getDriver fn).think t st).2.2 = false)
    (hfuel : S + 1 ≤ fuel) :
    m.execute fn none fuel = .err .stepLimit ⟨0, S + 1⟩ S := by
  have hl := executeLoop_neverFinish S (m.getDriver fn) hnf h0 fuel 0 0
    (ExecFrame.fromFunc fn) (m.getDriver fn).initThread (Nat.zero_le S) (by omega)
  simp only [ExecFrame.fromFunc, Nat.sub_zero, Nat.zero_add, Nat.add_zero] at hl
  simp only [Manager.execute, hS, ExecFrame.fromFunc]
  rw [hl]
  rfl

/-- C3 witness: with `S = 2` and fuel 5 the limit error arrives after
exactly 2 thinks. -/
theorem execute_stepLimit_exact_witness :
    mS2.execute fnNever none 5 = .err .stepLimit ⟨0, 3⟩ 2 :=
  execute_stepLimit_exact mS2 fnNever 2 5 rfl (by decide)
    (fun _ _ => rfl) (by omega)

/-- C3 counterexample to the unrestricted claim: at `S = 0` the check is
disabled (`max_step != 0 and ...`), so with a never-finishing driver
`execute` is still looping after 5 think iterations instead of having
failed after exactly 0. -/
theorem stepLimit_not_enforced_at_zero_cex :
    mS0.maxStep = 0 ∧ mS0.execute fnNever none 5 = .outOfFuel ⟨0, 5⟩ 5 :=
  ⟨rfl, rfl⟩

/-- C4: the claim says a non-absent result whose runtime type differs from
the task's declared result type is rejected even when it is an
`AIFuncResult`.  The code only tests `isinstance(result, AIFuncResult)`:
a result of class `OtherResult` for a task declaring `SpecificResult` is
accepted and returned, while only values outside the base class are
rejected.  This evaluates the code at the failing input of the code-bug
report. -/
theorem execute_accepts_wrong_declared_type :
    fnWrongTy.resultType = "SpecificResult" ∧
    m7.execute fnWrongTy none 3 = .done (.aifuncResult "OtherResult") ⟨0, 1⟩ 1 ∧
    m7.execute fnBad none 3 = .err .resultTypeMismatch ⟨0, 1⟩ 1 :=
  ⟨rfl, rfl, rfl⟩

/-- C8 (amended): a frame driven by `execute` under bound `S ≥ 1` gains at
most `S + 1` step sequence numbers beyond its starting counter — one more
than the claimed bound `S`, because each iteration creates its `ExecStep`
before the limit check (a frame pre-stepped once by `run` can thus reach
its executing child's bound plus 2). -/
theorem execute_steps_created_bound (m : Manager) (fn : AIFunc) (fuel S : Nat)
    (hS : m.maxStep = S) (h0 : S ≠ 0) :
    (∀ frame, (m.execute fn (some frame) fuel).frame.steps ≤ frame.steps + S + 1) ∧
    (m.execute fn none fuel).frame.steps ≤ S + 1 := by
  constructor
  · intro frame
    simp only [Manager.execute, hS, finishCheck_frame]
    have := executeLoop_steps_le S (m.getDriver fn) h0 fuel frame
      (m.getDriver fn).initThread 0 0 (Nat.zero_le S)
    omega
  · simp only [Manager.execute, hS, finishCheck_frame, ExecFrame.fromFunc]
    have := executeLoop_steps_le S (m.getDriver fn) h0 fuel (ExecFrame.fromFunc fn)
      (m.getDriver fn).initThread 0 0 (Nat.zero_le S)
    simp only [ExecFrame.fromFunc] at this
    omega

/-- C8 witness: concrete instance of the amended bound. -/
theorem execute_steps_created_bound_witness :
    (mS1.execute fnNever none 3).frame.steps ≤ 1 + 1 :=
  (execute_steps_created_bound mS1 fnNever 3 1 rfl (by decide)).2

/-- C8 counterexample to the claim as stated: with bound `S = 1` the
execute loop creates a step with sequence number 2 for the frame (the
final frame counter is 2) — the sequence number exceeds the frame's
configured bound. -/
theorem step_seq_exceeds_bound_cex :
    mS1.maxStep = 1 ∧ mS1.execute fnNever none 3 = .err .stepLimit ⟨0, 2⟩ 1 :=
  ⟨rfl, rfl⟩

/-- C10: with `max_step = 0` the guard `max_step != 0 and step > max_step`
never fires: for every driver and task the step-limit error is never
raised, and a never-finishing driver keeps the loop running forever (one
think per unit of unrolled fuel, never an error). -/
theorem maxStep_zero_no_limit (m : Manager) (fn : AIFunc)
    (frameOpt : Option ExecFrame) (hS : m.maxStep = 0) :
    (∀ fuel f t, m.execute fn frameOpt fuel ≠ .err .stepLimit f t) ∧
    ((∀ t st, ((m.getDriver fn).think t st).2.2 = false) →
      ∀ fuel, m.execute fn none fuel = .outOfFuel ⟨0, fuel⟩ fuel) := by
  constructor
  · intro fuel f t
    simp only [Manager.execute, hS]
    apply finishCheck_ne_stepLimit
    intro f' t'
    exact executeLoop_zero_noLimit _ _ _ _ _ _ f' t'
  · intro hnf fuel
    simp only [Manager.execute, hS, ExecFrame.fromFunc]
    rw [executeLoop_zero_runs _ hnf]
    simp [finishCheck]

/-- C10 witness: 7 units of fuel, 7 thinks, still looping, no error. -/
theorem maxStep_zero_no_limit_witness :
    mS0.execute fnNever none 7 = .outOfFuel ⟨0, 7⟩ 7 :=
  (maxStep_zero_no_limit mS0 fnNever none rfl).2 (fun _ _ => rfl) 7

/-- C7: `run(key, fn)` on a Manager bound to step `s` (within its depth
budget) builds a frame one level below `s`, hands it to a fresh child
Manager on the frame's first step, and then — whatever the driver does —
if the child's `execute` returns a result, `run` returns it, stores it
under `key` in the calling Manager's own store (so `get key` yields it)
and tears the child down; if `execute` raises, `run` re-raises, leaves
the caller's store untouched and still tears the child down. -/
theorem run_stores_and_destroys_child
    (m : Manager) (w : World) (key : String) (fn : AIFunc) (fuel : Nat)
    (c : Nat) (s : ExecStep)
    (hc : m.container = some c)
    (hs : m.execStep = some s)
    (hd : s.depth + 1 ≤ m.maxDepth) :
    (s.newFrame.newStep.1.depth = s.depth + 1) ∧
    (∀ sub, m.subManager s.newFrame.newStep.2 = .ok sub →
      (∀ r f t, sub.execute fn (some s.newFrame.newStep.1) fuel = .done r f t →
         m.run w key fn fuel = (.ok r, m.set key r, w.destroyScope c) ∧
         (m.set key r).get key = some r) ∧
      (∀ e f t, sub.execute fn (some s.newFrame.newStep.1) fuel = .err e f t →
         m.run w key fn fuel = (.raised e, m, w.destroyScope c))) ∧
    (∃ sub, m.subManager s.newFrame.newStep.2 = .ok sub ∧
       sub.container = some c ∧ sub.values = [] ∧ sub.destroyed = false) := by
  have hframe : s.newFrame.newStep.1 = (⟨s.depth + 1, 1⟩ : ExecFrame) := by
    simp [ExecStep.newFrame, ExecFrame.newStep]
  have hsub : m.subManager s.newFrame.newStep.2 =
      .ok { container := some c, execStep := some ⟨s.depth + 1, 1⟩,
            llmApiName := m.llmApiName, maxDepth := m.maxDepth, maxStep := 10,
            defaultDriverType := m.defaultDriverType, values := [],
            destroyed := false } := by
    simp only [Manager.subManager, hc, mkManager, ExecStep.newFrame,
      ExecFrame.newStep, Nat.zero_add]
    rw [if_neg (by omega)]
  refine ⟨by rw [hframe], fun sub hs2 => ?_, _, hsub, rfl, rfl, rfl⟩
  have hsubeq := Except.ok.inj (hs2.symm.trans hsub)
  subst hsubeq
  constructor
  · intro r f t hex
    refine ⟨?_, Manager.get_set_same m key r⟩
    simp only [Manager.run, hs, hsub, hex, Manager.destroy]
    rfl
  · intro e f t hex
    simp only [Manager.run, hs, hsub, hex, Manager.destroy]
    rfl

/-- The child Manager `mStep.run` creates: bound to the first step of the
depth-1 frame, same scope 7, default bounds. -/
def mWchild : Manager :=
  { container := some 7, execStep := some ⟨1, 1⟩, llmApiName := "",
    maxDepth := 10, maxStep := 10, defaultDriverType := idleDriver,
    values := [], destroyed := false }

/-- C7 witness: a concrete successful `run` stores the result under the
key and destroys the child's scope. -/
theorem run_stores_and_destroys_child_witness :
    mStep.run w0 "k" fnOk 3 =
      (.ok (.aifuncResult "A"), mStep.set "k" (.aifuncResult "A"), w0.destroyScope 7) ∧
    (mStep.set "k" (.aifuncResult "A")).get "k" = some (.aifuncResult "A") :=
  ((run_stores_and_destroys_child mStep w0 "k" fnOk 3 7 ⟨0, 1⟩ rfl rfl
      (by decide)).2.1 mWchild rfl).1 (.aifuncResult "A") ⟨1, 2⟩ 1 rfl

/-! ### Behaviour of the self-launching chain -/

/-- Specification of `executeSelf` relative to depth budget `D`: from a
frame within budget, the member with `k` remaining launches succeeds
(performing `k` launch attempts) precisely when the chain stays within
the depth bound, and otherwise fails with the recursion-limit error after
exactly `D + 1 - depth` launch attempts. -/
def SelfExecSpec (D k : Nat) : Prop :=
  ∀ (m : Manager) (frame : ExecFrame) (w : World) (c : Nat),
    m.container = some c → m.maxDepth = D → frame.depth ≤ D →
    ((frame.depth + k ≤ D →
        ∃ w', executeSelf m frame w k = (.ok selfResult, w', k)) ∧
     (D < frame.depth + k →
        ∃ w', executeSelf m frame w k =
          (.raised .recursionLimit, w', D + 1 - frame.depth)))

/-- Specification of `runSelf` relative to depth budget `D`: launching
from a context bound to a step within budget. -/
def SelfRunSpec (D k : Nat) : Prop :=
  ∀ (m : Manager) (w : World) (key : String) (c : Nat) (s : ExecStep),
    m.container = some c → m.maxDepth = D → m.execStep = some s → s.depth ≤ D →
    ((s.depth + 1 + k ≤ D →
        ∃ w' m', runSelf m w key k = (.ok selfResult, m', w', k + 1)) ∧
     (D < s.depth + 1 + k →
        ∃ w', runSelf m w key k = (.raised .recursionLimit, m, w', D + 1 - s.depth)))

/-- The record `sub_manager(step)` builds for caller `m` on scope `c` when
the depth check passes (spelling out `mkManager`'s success value). -/
def childOf (m : Manager) (c : Nat) (st : ExecStep) : Manager :=
  { container := some c, execStep := some st, llmApiName := m.llmApiName,
    maxDepth := m.maxDepth, maxStep := 10,
    defaultDriverType := m.defaultDriverType, values := [], destroyed := false }

theorem subManager_eq_childOf (m : Manager) (c : Nat) (st : ExecStep)
    (hc : m.container = some c) (hle : st.depth ≤ m.maxDepth) :
    m.subManager st = .ok (childOf m c st) := by
  simp only [Manager.subManager, hc, mkManager, childOf]
  rw [if_neg (by omega)]

theorem selfRunSpec_of_exec (D k : Nat) (he : SelfExecSpec D k) :
    SelfRunSpec D k := by
  intro m w key c s hc hD hs hdep
  by_cases hcase : s.depth + 1 ≤ D
  · have hsub : m.subManager (s.newFrame.newStep).2 =
        .ok (childOf m c (s.newFrame.newStep).2) :=
      subManager_eq_childOf m c _ hc
        (by simp only [ExecStep.newFrame, ExecFrame.newStep]; omega)
    have hchild := he (childOf m c (s.newFrame.newStep).2)
      (s.newFrame.newStep).1 w c rfl hD
      (by simp [ExecStep.newFrame, ExecFrame.newStep]; omega)
    constructor
    · intro hle
      obtain ⟨w', hex⟩ := hchild.1
        (by simp only [ExecStep.newFrame, ExecFrame.newStep]; omega)
      refine ⟨w'.destroyScope c, m.set key selfResult, ?_⟩
      simp only [runSelf, hs, hsub, hex, Manager.destroy]
      rfl
    · intro hgt
      obtain ⟨w', hex⟩ := hchild.2
        (by simp only [ExecStep.newFrame, ExecFrame.newStep]; omega)
      refine ⟨w'.destroyScope c, ?_⟩
      have h4 : D + 1 - ((s.newFrame.newStep).1.depth) + 1 = D + 1 - s.depth := by
        simp only [ExecStep.newFrame, ExecFrame.newStep]
        omega
      calc runSelf m w key k
          = (.raised .recursionLimit, m, w'.destroyScope c,
              D + 1 - ((s.newFrame.newStep).1.depth) + 1) := by
            simp only [runSelf, hs, hsub, hex]
            rfl
        _ = (.raised .recursionLimit, m, w'.destroyScope c, D + 1 - s.depth) := by
            rw [h4]
  · have hdeq : s.depth = D := by omega
    have hsub : m.subManager (s.newFrame.newStep).2 = .error .recursionLimit := by
      simp only [Manager.subManager, hc, mkManager, ExecStep.newFrame,
        ExecFrame.newStep, Nat.zero_add]
      rw [if_pos (by omega)]
    constructor
    · intro hle
      exact absurd hle (by omega)
    · intro hgt
      refine ⟨w, ?_⟩
      calc runSelf m w key k = (.raised .recursionLimit, m, w, 1) := by
            simp only [runSelf, hs, hsub]
        _ = (.raised .recursionLimit, m, w, D + 1 - s.depth) := by
            rw [show D + 1 - s.depth = 1 by omega]

theorem selfExecSpec_zero (D : Nat) : SelfExecSpec D 0 := by
  intro m frame w c hc hD hdep
  have hcond : ¬ (m.maxStep ≠ 0 ∧ 1 > m.maxStep) := by omega
  have hctx : m.subManager (frame.newStep).2 =
      .ok (childOf m c (frame.newStep).2) :=
    subManager_eq_childOf m c _ hc
      (by simp only [ExecFrame.newStep]; omega)
  constructor
  · intro _
    refine ⟨w, ?_⟩
    simp only [executeSelf, hcond, if_false, hctx]
  · intro hgt
    exact absurd hgt (by omega)

theorem selfExecSpec_succ (D k : Nat) (hr : SelfRunSpec D k) :
    SelfExecSpec D (k + 1) := by
  intro m frame w c hc hD hdep
  have hcond : ¬ (m.maxStep ≠ 0 ∧ 1 > m.maxStep) := by omega
  have hctx : m.subManager (frame.newStep).2 =
      .ok (childOf m c (frame.newStep).2) :=
    subManager_eq_childOf m c _ hc
      (by simp only [ExecFrame.newStep]; omega)
  have hchild := hr (childOf m c (frame.newStep).2) w "self" c
      (frame.newStep).2 rfl hD rfl
      (by simp only [ExecFrame.newStep]; omega)
  simp only [ExecFrame.newStep] at hctx hchild
  constructor
  · intro hle
    obtain ⟨w', m', hrun⟩ := hchild.1 (by omega)
    refine ⟨w', ?_⟩
    simp only [executeSelf, hcond, if_false, ExecFrame.newStep, hctx, hrun]
  · intro hgt
    obtain ⟨w', hrun⟩ := hchild.2 (by omega)
    refine ⟨w', ?_⟩
    simp only [executeSelf, hcond, if_false, ExecFrame.newStep, hctx, hrun]

theorem selfSpec (D : Nat) : ∀ k, SelfExecSpec D k ∧ SelfRunSpec D k := by
  intro k
  induction k with
  | zero =>
      have he := selfExecSpec_zero D
      exact ⟨he, selfRunSpec_of_exec D 0 he⟩
  | succ k ih =>
      have he := selfExecSpec_succ D k ih.2
      exact ⟨he, selfRunSpec_of_exec D (k + 1) he⟩

/-- C5: for every configured maximum depth `D`, a task that recursively
launches itself via `run` succeeds when it makes `D` or fewer nested
launches (each launch attempt going one frame deeper), and fails with the
recursion-limit error exactly on the `(D+1)`-th nested launch — the
attempt whose new frame would sit at depth `D + 1 > D` — whenever it
tries to make more than `D` launches. -/
theorem run_recursionLimit_exact (D N : Nat) :
    (N ≤ D → ∃ w', topSelf D N = (.ok selfResult, w', N)) ∧
    (D < N → ∃ w', topSelf D N = (.raised .recursionLimit, w', D + 1)) := by
  have he := (selfSpec D N).1 (rootManager 0 idleDriver D 10)
    (ExecFrame.fromFunc selfFn) ⟨[]⟩ 0 rfl rfl
    (by simp [ExecFrame.fromFunc])
  simp only [ExecFrame.fromFunc, Nat.zero_add, Nat.sub_zero] at he
  constructor
  · intro h
    exact he.1 h
  · intro h
    exact he.2 h

/-- C5 witness: with depth bound 2, two nested launches succeed and three
fail with the recursion-limit error on the third launch. -/
theorem run_recursionLimit_exact_witness :
    ((2 : Nat) ≤ 2 ∧ ∃ w', topSelf 2 2 = (.ok selfResult, w', 2)) ∧
    ((2 : Nat) < 3 ∧ ∃ w', topSelf 2 3 = (.raised .recursionLimit, w', 3)) :=
  ⟨⟨le_refl 2, (run_recursionLimit_exact 2 2).1 (le_refl 2)⟩,
   ⟨by omega, (run_recursionLimit_exact 2 3).2 (by omega)⟩⟩

/-! ### Lemmas about the shared store under `run` and `parallel_run` -/

/-- A `run` under a different key leaves the stored value of `k` alone. -/
theorem run_get_preserve (m : Manager) (w : World) (key : String) (fn : AIFunc)
    (fuel : Nat) (k : String) (hk : k ≠ key) :
    ((m.run w key fn fuel).2.1).get k = m.get k := by
  simp only [Manager.run]
  repeat' split
  all_goals first
    | rfl
    | exact Manager.get_set_other m k key _ (Ne.symm hk)

/-- A `run` that returns a result stored it under its key. -/
theorem run_ok_sets (m : Manager) (w : World) (key : String) (fn : AIFunc)
    (fuel : Nat) (r : PyVal) :
    (m.run w key fn fuel).1 = .ok r →
    (m.run w key fn fuel).2.1 = m.set key r := by
  simp only [Manager.run]
  repeat' split
  all_goals intro h
  all_goals first
    | (injection h with h; subst h; rfl)
    | exact PyRes.noConfusion h

/-- The workers' outcome list is keyed exactly like the task list. -/
theorem runWorkers_keys (fuel : Nat) :
    ∀ (tasks : List (String × AIFunc)) (m : Manager) (w : World),
      ((runWorkers fuel m w tasks).2.2).map Prod.fst = tasks.map Prod.fst := by
  intro tasks
  induction tasks with
  | nil => intro m w; rfl
  | cons p rest ih =>
      intro m w
      obtain ⟨key, fn⟩ := p
      simp only [runWorkers, List.map_cons, ih]

/-- Workers under other keys leave the stored value of `k` alone. -/
theorem runWorkers_get_notin (fuel : Nat) :
    ∀ (tasks : List (String × AIFunc)) (m : Manager) (w : World) (k : String),
      k ∉ tasks.map Prod.fst →
      ((runWorkers fuel m w tasks).1).get k = m.get k := by
  intro tasks
  induction tasks with
  | nil => intro m w k _; rfl
  | cons p rest ih =>
      intro m w k hk
      obtain ⟨key, fn⟩ := p
      simp only [List.map_cons, List.mem_cons, not_or] at hk
      simp only [runWorkers]
      rw [ih _ _ _ hk.2]
      exact run_get_preserve m w key fn fuel k hk.1

/-- After all workers have run, every worker that returned a result has it
stored under its key (keys being distinct). -/
theorem runWorkers_stored (fuel : Nat) :
    ∀ (tasks : List (String × AIFunc)) (m : Manager) (w : World) (j : Nat)
      (k : String) (r : PyVal),
      (tasks.map Prod.fst).Nodup →
      (runWorkers fuel m w tasks).2.2.get? j = some (k, .ok r) →
      ((runWorkers fuel m w tasks).1).get k = some r := by
  intro tasks
  induction tasks with
  | nil => intro m w j k r _ hj; simp [runWorkers] at hj
  | cons p rest ih =>
      intro m w j k r hnd hj
      obtain ⟨key, fn⟩ := p
      simp only [List.map_cons, List.nodup_cons] at hnd
      cases j with
      | zero =>
          simp only [runWorkers, List.get?_cons_zero] at hj
          injection hj with hj
          have hk : key = k := congrArg Prod.fst hj
          have hres : (m.run w key fn fuel).1 = .ok r := congrArg Prod.snd hj
          subst hk
          simp only [runWorkers]
          rw [runWorkers_get_notin fuel rest _ _ key hnd.1,
            run_ok_sets m w key fn fuel r hres]
          exact Manager.get_set_same m key r
      | succ j =>
          simp only [runWorkers, List.get?_cons_succ] at hj
          simp only [runWorkers]
          exact ih _ _ j k r hnd.2 hj

/-- The `as_completed` loop surfaces the first failed worker along the
completion order. -/
theorem asCompletedLoop_raised (outs : List (String × PyRes)) :
    ∀ (order : List Nat) (m : Manager) (acc : List (String × PyVal)) (e : PyErr),
      firstFailure outs order = some e →
      (asCompletedLoop outs order m acc).1 = .raised e := by
  intro order
  induction order with
  | nil => intro m acc e h; simp [firstFailure] at h
  | cons i rest ih =>
      intro m acc e h
      rcases hi : outs.get? i with _ | ⟨k, res⟩
      · rw [firstFailure, hi] at h
        simp at h
      · rw [firstFailure, hi] at h
        cases res with
        | ok v =>
            simp only at h
            simp only [asCompletedLoop, hi]
            exact ih _ _ e h
        | raised e' =>
            simp only [Option.some.injEq] at h
            simp only [asCompletedLoop, hi, h]
        | fuelOut => simp at h

/-- The `as_completed` loop re-stores only pairs the workers produced, so
with distinct keys a stored value survives the loop. -/
theorem asCompletedLoop_get_preserve (outs : List (String × PyRes))
    (hnd : (outs.map Prod.fst).Nodup) (j : Nat) (kj : String) (r : PyVal)
    (hj : outs.get? j = some (kj, .ok r)) :
    ∀ (order : List Nat) (m : Manager) (acc : List (String × PyVal)),
      m.get kj = some r →
      ((asCompletedLoop outs order m acc).2).get kj = some r := by
  intro order
  induction order with
  | nil => intro m acc hm; simpa only [asCompletedLoop] using hm
  | cons i rest ih =>
      intro m acc hm
      rcases hi : outs.get? i with _ | ⟨k, res⟩
      · simp only [asCompletedLoop, hi]
        exact hm
      · cases res with
        | ok v =>
            simp only [asCompletedLoop, hi]
            apply ih
            by_cases hkk : k = kj
            · subst hkk
              have h1 : (outs.map Prod.fst).get? i = some k := by
                rw [List.get?_map, hi]; rfl
              have h2 : (outs.map Prod.fst).get? j = some k := by
                rw [List.get?_map, hj]; rfl
              obtain ⟨hlt, -⟩ := List.get?_eq_some.mp h1
              have hij : i = j := List.get?_inj hlt hnd (h1.trans h2.symm)
              subst hij
              have : (k, PyRes.ok v) = (k, PyRes.ok r) :=
                Option.some.inj (hi.symm.trans hj)
              have hv : v = r := by
                have := congrArg Prod.snd this
                simpa using this
              subst hv
              exact Manager.get_set_same m k v
            · rw [Manager.get_set_other m kj k v hkk]
              exact hm
        | raised e =>
            simp only [asCompletedLoop, hi]
            exact hm
        | fuelOut =>
            simp only [asCompletedLoop, hi]
            exact hm

/-- C6: when some worker of `parallel_run` fails, every worker still runs
to completion (the model runs them all before draining the futures, as
the executor's context-manager join does), the error the caller observes
is the first captured failure along the completion order, and every
successful sibling's result remains stored in the calling Manager — so
`get` still returns it after the error is raised. -/
theorem parallelRun_worker_failure
    (m : Manager) (w : World) (tasks : List (String × AIFunc))
    (order : List Nat) (fuel : Nat) (e : PyErr)
    (hnd : (tasks.map Prod.fst).Nodup)
    (hf : firstFailure (runWorkers fuel m w tasks).2.2 order = some e) :
    (m.parallelRun w tasks order fuel).1 = .raised e ∧
    (∀ j k r, (runWorkers fuel m w tasks).2.2.get? j = some (k, .ok r) →
      ((m.parallelRun w tasks order fuel).2.1).get k = some r) := by
  constructor
  · simp only [Manager.parallelRun]
    exact asCompletedLoop_raised _ order _ [] e hf
  · intro j k r hj
    simp only [Manager.parallelRun]
    have hnd2 : ((runWorkers fuel m w tasks).2.2.map Prod.fst).Nodup := by
      rw [runWorkers_keys]; exact hnd
    exact asCompletedLoop_get_preserve _ hnd2 j k r hj order _ []
      (runWorkers_stored fuel tasks m w j k r hnd hj)

/-- C6 witness: worker `"b"` raises, worker `"a"` succeeds; with `"b"`
completing first, the caller sees `"b"`'s error and `get "a"` still
returns `"a"`'s result. -/
theorem parallelRun_worker_failure_witness :
    (m7.parallelRun w0 [("a", fnOk), ("b", fnBad)] [1, 0] 3).1 =
      .raised .resultTypeMismatch ∧
    ((m7.parallelRun w0 [("a", fnOk), ("b", fnBad)] [1, 0] 3).2.1).get "a" =
      some (.aifuncResult "A") :=
  ⟨(parallelRun_worker_failure m7 w0 [("a", fnOk), ("b", fnBad)] [1, 0] 3
      .resultTypeMismatch (by decide) rfl).1,
   (parallelRun_worker_failure m7 w0 [("a", fnOk), ("b", fnBad)] [1, 0] 3
      .resultTypeMismatch (by decide) rfl).2 0 "a" (.aifuncResult "A") rfl⟩

end GhostOS
